import Mathlib

/-!
# Verification of the `particle` partial-struct generator

Shallow embedding of `generator.go` (package `particle`): the code
generator that, for each struct type declaration in a parsed Go file,
emits a map-backed "partial" type together with one accessor and one
mutator per field.

The embedding models:
* the fragment of `go/ast` the generator consumes (`ImportSpec`,
  `TypeSpec`, `Field`, type expressions);
* the semantics of `reflect.StructTag.Get` from the Go standard
  library, which `fieldNames` applies to the *raw* tag literal
  `field.Tag.Value` (backquotes included, exactly as `go/parser`
  delivers it);
* the `jen` output as an abstract structure: the list of registered
  imports and the ordered list of emitted members (type definition,
  accessor functions, mutator functions).  Comment lines and blank
  lines emitted by `Commentf`/`Line` are formatting only and are not
  members.

Go panics (`panic("field must have a name")`, the `qualify` failure,
the unsupported-type default) become `Except.error` values of
`GenError`; a panic aborts the whole generation, so `Except` error
propagation is the faithful picture: no output is produced.
-/

namespace particle

/-- Generator options, mirroring `GeneratorOpts` in `generator.go`
(fields `Package`, `StructTag`, `TypePrefix`). -/
structure GeneratorOpts where
  Package : String
  StructTag : String
  TypePrefix : String
deriving DecidableEq, Repr

/-- An `*ast.ImportSpec`: optional explicit alias (`Name`), and the raw
path literal `Path.Value` as it appears in source, surrounding double
quotes included (that is what `go/parser` stores and what the code
trims with `strings.Trim(..., "\"")`). -/
structure ImportSpec where
  name : Option String
  pathValue : String
deriving DecidableEq, Repr

/-- The fragment of `ast.Expr` that `determineType` switches on:
`*ast.Ident`, `*ast.SelectorExpr` (with the `X` operand an identifier,
as the code's type assertion `expr.X.(*ast.Ident)` requires),
`*ast.MapType`, `*ast.ArrayType` (whose `Len` is `none` for a slice
`[]T` and `some n` for a fixed-size array `[n]T`; the code never reads
`Len`), `*ast.StarExpr`, and a constructor for every other AST node,
which falls into the `default: panic` arm. -/
inductive Expr where
  | ident (name : String)
  | selector (pkg : String) (sel : String)
  | mapType (key value : Expr)
  | arrayType (len : Option Nat) (elt : Expr)
  | starExpr (x : Expr)
  | unsupported
deriving DecidableEq, Repr

/-- An `*ast.Field`: the list of declared names (`Names`, empty for an
embedded/anonymous field, several for a declaration like `A, B int`),
the type expression, and the raw struct-tag literal `Tag.Value`
(`none` when `Tag == nil`; otherwise the literal exactly as written in
source, backquotes or quotes included). -/
structure Field where
  names : List String
  type : Expr
  tag : Option String
deriving DecidableEq, Repr

/-- The `Type` of an `*ast.TypeSpec`: either a struct type with its
field list, or any other type expression (not processed). -/
inductive TypeSpecType where
  | structType (fields : List Field)
  | otherType
deriving DecidableEq, Repr

/-- An `*ast.TypeSpec`: declared name and underlying type. -/
structure TypeSpec where
  name : String
  type : TypeSpecType
deriving DecidableEq, Repr

/-- A top-level declaration of the source file: a type declaration, or
anything else (functions, constants, variables, ...).  `File` walks
the file with `ast.Inspect`, which recurses into *every* subtree —
function bodies and initializers included — and matches `*ast.TypeSpec`
at any depth; a non-type top-level declaration therefore carries the
list of type specs nested inside it, in traversal (textual) order,
because the walk reacts to each of them. -/
inductive Decl where
  | typeSpecDecl (ts : TypeSpec)
  | otherDecl (nested : List TypeSpec)
deriving DecidableEq, Repr

/-- A parsed source file (`*ast.File`): its import specs and its
top-level declarations, in source order. -/
structure SourceFile where
  imports : List ImportSpec
  decls : List Decl
deriving DecidableEq, Repr

/-- The error channel.  In the Go code every one of these is a `panic`
(or, for the import lookup, an `error` that is immediately turned into
a panic by `determineType`), aborting the whole generation. -/
inductive GenError where
  | missingFieldName
  | unresolvedImport
  | unsupportedType
deriving DecidableEq, Repr

/-- The output-side type expression: what the chain of `jen` builder
calls in `determineType` denotes (`jen.Id`, `jen.Qual`, `jen.Map`,
`jen.Index().Add`, `jen.Op("*").Add`). -/
inductive OutType where
  | id (name : String)
  | qual (pkg : String) (name : String)
  | map (key value : OutType)
  | index (elt : OutType)
  | star (x : OutType)
deriving DecidableEq, Repr

/-- A generated member of the output file: the partial map-type
definition `type <name> map[string]any`, an accessor
`func (p <recv>) <funcName>() <ret> { return p["<key>"].(<ret>) }`, or
a mutator
`func (p <recv>) <funcName>(v <param>) <recv> { p["<key>"] = v; return p }`.
The accessor's declared return type and asserted type are both the
same `determineType` result, so one field holds both. -/
inductive Member where
  | typeDef (name : String)
  | accessFunc (recv funcName key : String) (ret : OutType)
  | withFunc (recv funcName key : String) (param : OutType)
deriving DecidableEq, Repr

/-- `true` exactly on accessor members. -/
def Member.isAccess : Member → Bool
  | .accessFunc _ _ _ _ => true
  | _ => false

/-- `true` exactly on mutator members. -/
def Member.isWith : Member → Bool
  | .withFunc _ _ _ _ => true
  | _ => false

/-- An import registration on the `jen` file: `file.ImportName(path, "")`
for a spec without explicit alias, `file.ImportAlias(path, alias)` for
one with. -/
inductive ImportReg where
  | importName (path : String)
  | importAlias (path aliasName : String)
deriving DecidableEq, Repr

/-- The generated unit as the `jen.File` accumulates it: package name,
the import *registrations* made on it (naming hints — not the
rendered block of imports, which jennifer computes from the `Qual`
references at render time; see `renderedImports` below), and the
emitted members in emission order. -/
structure GenFile where
  pkg : String
  imports : List ImportReg
  members : List Member
deriving DecidableEq, Repr

/-! ## String helpers from the Go standard library -/

/-- `strings.Trim(s, "\"")`: remove every leading and trailing `"`
character. -/
def trimQuotes (s : String) : String :=
  String.mk (((s.data.dropWhile (fun c => c = '"')).reverse.dropWhile
    (fun c => c = '"')).reverse)

/-- The last element of `strings.Split(path, "/")`: the suffix of
`path` after its last `/` (the whole string when it has no `/`,
the empty string when it ends in `/`). -/
def lastSegment (s : String) : String :=
  String.mk ((s.data.reverse.takeWhile (fun c => c ≠ '/')).reverse)

/-! ## `reflect.StructTag.Get`

`fieldNames` runs `reflect.StructTag(field.Tag.Value).Get(key)` on the
raw tag literal.  We transcribe `StructTag.Lookup` from the Go
standard library (`reflect/type.go`), working on the character list of
the tag (the tags of interest are ASCII, where Go's byte-level scan
and this character-level scan coincide). -/

/-- Skip leading `' '` characters (Go: `for ... tag[i] == ' '`). -/
def dropSpaces : List Char → List Char
  | ' ' :: rest => dropSpaces rest
  | l => l

/-- A character the key scan accepts: Go's
`tag[i] > ' ' && tag[i] != ':' && tag[i] != '"' && tag[i] != 0x7f`. -/
def isNameChar (c : Char) : Bool :=
  0x20 < c.toNat && c ≠ ':' && c ≠ '"' && c.toNat ≠ 0x7f

/-- Scan a quoted value after its opening `"`: Go's
`for i < len(tag) && tag[i] != '"' { if tag[i] == '\\' { i++ }; i++ }`.
Returns the value characters (escapes kept verbatim, closing quote
dropped) and the rest of the tag, or `none` when the closing quote is
missing. -/
def scanQuoted : List Char → Option (List Char × List Char)
  | [] => none
  | '"' :: rest => some ([], rest)
  | '\\' :: c :: rest =>
    match scanQuoted rest with
    | some (v, r) => some ('\\' :: c :: v, r)
    | none => none
  | c :: rest =>
    match scanQuoted rest with
    | some (v, r) => some (c :: v, r)
    | none => none

/-- One backslash escape inside a quoted tag value, as
`strconv.Unquote` resolves it.  Numeric (`\xHH`, `\uHHHH`, octal)
escapes are not modelled (no tag in this development uses any escape at
all); on such input the model fails like `Unquote` fails on a malformed
escape. -/
def escChar : Char → Option Char
  | 'a' => some (Char.ofNat 0x07)
  | 'b' => some (Char.ofNat 0x08)
  | 'f' => some (Char.ofNat 0x0c)
  | 'n' => some (Char.ofNat 0x0a)
  | 'r' => some (Char.ofNat 0x0d)
  | 't' => some (Char.ofNat 0x09)
  | 'v' => some (Char.ofNat 0x0b)
  | '\\' => some '\\'
  | '\'' => some '\''
  | '"' => some '"'
  | _ => none

/-- `strconv.Unquote` applied to the scanned value (its surrounding
double quotes already stripped by `scanQuoted`): resolve the
backslash escapes, fail on a malformed one. -/
def unquoteChars : List Char → Option (List Char)
  | [] => some []
  | '\\' :: c :: rest =>
    match escChar c, unquoteChars rest with
    | some e, some r => some (e :: r)
    | _, _ => none
  | '\\' :: [] => none
  | c :: rest =>
    match unquoteChars rest with
    | some r => some (c :: r)
    | none => none

/-- The loop of `reflect.StructTag.Lookup`.  `fuel` bounds the number
of iterations; every iteration consumes at least the key, `:` and the
quoted value, so `tag.length` iterations always suffice. -/
def structTagLoop (key : String) : Nat → List Char → Option String
  | 0, _ => none
  | fuel + 1, tag =>
    let tag := dropSpaces tag
    if tag.isEmpty then none
    else
      let name := tag.takeWhile isNameChar
      match name, tag.dropWhile isNameChar with
      | [], _ => none
      | _, ':' :: '"' :: rest =>
        match scanQuoted rest with
        | none => none
        | some (v, rest') =>
          if key = String.mk name then
            match unquoteChars v with
            | some value => some (String.mk value)
            | none => none
          else structTagLoop key fuel rest'
      | _, _ => none

/-- `reflect.StructTag.Get`: the looked-up value, or `""` when the tag
does not carry the key (or is malformed). -/
def structTagGet (tagLit key : String) : String :=
  (structTagLoop key (tagLit.length + 1) tagLit.data).getD ""

/-! ## The generator functions of `generator.go` -/

/-- `fieldNames`: the accessor name and the map key of a field.  The
name is always `field.Names[0].Name`.  The key is the struct-tag value
under `opts.StructTag` — looked up, as the code does, on the raw
literal `field.Tag.Value` — truncated at its first comma
(`strings.Index(tag, ",")` / `tag[:i]`); when the option is empty, the
field has no tag, or the lookup comes back empty, the key is the field
name.  (`field.Names[0]` is only evaluated on fields that passed the
`AccessFunc` name check; `headD ""` stands for that indexing.) -/
def fieldNames (opts : GeneratorOpts) (field : Field) : String × String :=
  let name := field.names.headD ""
  match field.tag with
  | some tagLit =>
    if opts.StructTag ≠ "" then
      let tag := structTagGet tagLit opts.StructTag
      if tag ≠ "" then
        (name, String.mk (tag.data.takeWhile (fun c => c ≠ ',')))
      else (name, name)
    else (name, name)
  | none => (name, name)

/-- `qualify`: walk the import specs in order; the first one whose
trimmed path's last `/`-segment equals the selector's package
identifier, or whose explicit alias equals it, resolves the
reference; with no match, `errors.New("could not find import")`,
which `determineType` turns into an aborting panic. -/
def qualify (pkgName selName : String) :
    List ImportSpec → Except GenError (String × String)
  | [] => .error .unresolvedImport
  | imp :: rest =>
    let path := trimQuotes imp.pathValue
    if lastSegment path = pkgName ∨ imp.name = some pkgName then
      .ok (selName, path)
    else qualify pkgName selName rest

/-- `determineType`: translate an `ast.Expr` into the output type.
Identifiers are emitted verbatim; selector expressions are resolved
through `qualify` (failure aborts); map, array and star types are
translated recursively — the array's `Len` is never consulted, so
`[n]T` and `[]T` both come out as `jen.Index().Add(...)`, a slice; any
other node kind hits the `default: panic("unsupported type ...")`. -/
def determineType : Expr → List ImportSpec → Except GenError OutType
  | .ident n, _ => .ok (.id n)
  | .selector pkg sel, imp =>
    match qualify pkg sel imp with
    | .ok (name, path) => .ok (.qual path name)
    | .error e => .error e
  | .mapType k v, imp => do
    let tk ← determineType k imp
    let tv ← determineType v imp
    pure (.map tk tv)
  | .arrayType _ elt, imp => do
    let te ← determineType elt imp
    pure (.index te)
  | .starExpr x, imp => do
    let tx ← determineType x imp
    pure (.star tx)
  | .unsupported, _ => .error .unsupportedType

/-- `Type`: emit the partial map-type definition
`type <TypePrefix><name> map[string]any` (named `TypeFunc` here, `Type`
being reserved in Lean).  On a non-struct `TypeSpec` the code panics
`"partial type must be a struct"`; `File` only calls it on structs. -/
def TypeFunc (opts : GeneratorOpts) (ts : TypeSpec) : Except GenError Member :=
  match ts.type with
  | .structType _ => .ok (.typeDef (opts.TypePrefix ++ ts.name))
  | .otherType => .error .unsupportedType

/-- `AccessFunc`: panic `"field must have a name"` on a field with no
names, else emit the accessor for `(name, key) = fieldNames(field)`
with return (and assertion) type `determineType(field.Type)`. -/
def AccessFunc (opts : GeneratorOpts) (typName : String) (field : Field)
    (imp : List ImportSpec) : Except GenError Member :=
  if field.names.isEmpty then .error .missingFieldName
  else do
    let p := fieldNames opts field
    let t ← determineType field.type imp
    pure (.accessFunc (opts.TypePrefix ++ typName) p.1 p.2 t)

/-- `WithFunc`: emit the mutator `With<name>` writing parameter `v` at
`key` and returning the receiver.  (The source reads
`field.Names[0]` through `fieldNames` without its own emptiness check;
`File` calls it only after `AccessFunc` has already passed.) -/
def WithFunc (opts : GeneratorOpts) (typName : String) (field : Field)
    (imp : List ImportSpec) : Except GenError Member := do
  let p := fieldNames opts field
  let t ← determineType field.type imp
  pure (.withFunc (opts.TypePrefix ++ typName) ("With" ++ p.1) p.2 t)

/-- `Import`: register one import spec on the output file —
`ImportName(trimmedPath, "")` without explicit alias,
`ImportAlias(trimmedPath, alias)` with one. -/
def ImportFunc (imp : ImportSpec) : ImportReg :=
  match imp.name with
  | none => .importName (trimQuotes imp.pathValue)
  | some a => .importAlias (trimQuotes imp.pathValue) a

/-- The field loop inside `File`: for each field of the struct, in
order, emit its accessor then its mutator (the interleaved `Line()`
calls are blank lines, not members). -/
def fieldsMembers (opts : GeneratorOpts) (imp : List ImportSpec)
    (typName : String) : List Field → Except GenError (List Member)
  | [] => .ok []
  | f :: fs => do
    let a ← AccessFunc opts typName f imp
    let w ← WithFunc opts typName f imp
    let rest ← fieldsMembers opts imp typName fs
    pure (a :: w :: rest)

/-- The `ast.Inspect` case body in `File` applied to one type spec: a
`TypeSpec` whose type is a struct yields its type definition followed
by the field members; a non-struct `TypeSpec` yields nothing (the walk
just returns `true`). -/
def typeSpecMembers (opts : GeneratorOpts) (imp : List ImportSpec)
    (ts : TypeSpec) : Except GenError (List Member) :=
  match ts.type with
  | .structType fields => do
    let t ← TypeFunc opts ts
    let ms ← fieldsMembers opts imp ts.name fields
    pure (t :: ms)
  | .otherType => .ok []

/-- The walk over the type specs `ast.Inspect` finds nested inside one
non-type declaration, in traversal order. -/
def typeSpecsMembers (opts : GeneratorOpts) (imp : List ImportSpec) :
    List TypeSpec → Except GenError (List Member)
  | [] => .ok []
  | ts :: rest => do
    let ms ← typeSpecMembers opts imp ts
    let more ← typeSpecsMembers opts imp rest
    pure (ms ++ more)

/-- What the `ast.Inspect` walk generates under one top-level
declaration: a type declaration contributes its own spec's members;
any other declaration contributes the members of every type spec
nested inside it, because `ast.Inspect` recurses into it. -/
def declMembers (opts : GeneratorOpts) (imp : List ImportSpec) :
    Decl → Except GenError (List Member)
  | .typeSpecDecl ts => typeSpecMembers opts imp ts
  | .otherDecl nested => typeSpecsMembers opts imp nested

/-- The declaration walk of `File` over the top-level declarations, in
source order. -/
def declsMembers (opts : GeneratorOpts) (imp : List ImportSpec) :
    List Decl → Except GenError (List Member)
  | [] => .ok []
  | d :: ds => do
    let ms ← declMembers opts imp d
    let rest ← declsMembers opts imp ds
    pure (ms ++ rest)

/-- `File` (with `NewGenerator`): copy the import specs onto the output
file, then walk the declarations; the package name comes from
`jen.NewFile(opts.Package)`.  A panic anywhere leaves no output: the
whole generation is the error. -/
def FileFunc (opts : GeneratorOpts) (file : SourceFile) :
    Except GenError GenFile := do
  let ms ← declsMembers opts file.imports file.decls
  pure { pkg := opts.Package
         imports := file.imports.map ImportFunc
         members := ms }

/-- `true` exactly on type specs whose underlying type is a struct —
the spec's "record shape". -/
def isRecordSpec (ts : TypeSpec) : Bool :=
  match ts.type with
  | .structType _ => true
  | .otherType => false

/-- `true` exactly on top-level declarations that are themselves
record (struct) type declarations — the claims' notion of "a
declaration whose shape is a record".  A non-type declaration is not a
record, whatever is nested inside it. -/
def isRecordDecl : Decl → Bool
  | .typeSpecDecl ts => isRecordSpec ts
  | .otherDecl _ => false

/-- The record-shaped type specs the `ast.Inspect` walk matches under
one top-level declaration — its own spec for a record type
declaration, the nested record specs for anything else. -/
def declRecordSpecs : Decl → List TypeSpec
  | .typeSpecDecl ts => if isRecordSpec ts then [ts] else []
  | .otherDecl nested => nested.filter isRecordSpec

/-- The import paths an output type references through qualification
(each `OutType.qual` is a `jen.Qual` call, the only construct that
makes jennifer emit an import). -/
def usedPaths : OutType → List String
  | .id _ => []
  | .qual p _ => [p]
  | .map k v => usedPaths k ++ usedPaths v
  | .index e => usedPaths e
  | .star x => usedPaths x

/-- The import paths one generated member references.  (The accessor's
rendered body repeats its type in the assertion, so each path occurs
twice in the real token stream; the rendered import block de-duplicates
paths, so listing each occurrence once loses nothing.) -/
def memberPaths : Member → List String
  | .typeDef _ => []
  | .accessFunc _ _ _ t => usedPaths t
  | .withFunc _ _ _ t => usedPaths t

/-- The alias jennifer's import map holds for `path` once the
registrations ran in order: `ImportName`/`ImportAlias` each overwrite
the map entry for their path (Go map assignment, last one wins), so
the result is `some a` when the last registration for the path was
`ImportAlias(path, a)`, and `none` when it was an `ImportName` or the
path was never registered. -/
def regAliasFor (regs : List ImportReg) (path : String) : Option String :=
  regs.foldl (fun acc r =>
    match r with
    | .importName p => if p = path then none else acc
    | .importAlias p a => if p = path then some a else acc) none

/-- The import block of the rendered output, modelled from jennifer's
documented rendering: `ImportName`/`ImportAlias` registrations are
naming *hints* and emit nothing by themselves; the block contains
exactly the distinct paths referenced by a `jen.Qual` somewhere in the
emitted members, each entry carrying the registered alias when the
path was registered with one.  (The real renderer sorts the block by
path; this model keeps first-reference order and the theorems about it
use only membership.) -/
def renderedImports (gf : GenFile) : List (Option String × String) :=
  ((gf.members.flatMap memberPaths).dedup).map
    (fun p => (regAliasFor gf.imports p, p))

/-- The resolving alias of one import spec following the
*specification's words* (§3 invariant: "if `alias` absent, the alias
used for resolution is the last `/`-delimited segment of `path`"; §4.4:
explicit alias otherwise).  Declared for comparison against the
source's `qualify`, which applies a different rule. -/
def specResolveAlias (imp : ImportSpec) : String :=
  match imp.name with
  | some a => a
  | none => lastSegment (trimQuotes imp.pathValue)

/-- The per-spec matching test the loop in the source's `qualify`
actually performs: the last `/`-segment of the trimmed path equals the
package identifier, or the explicit alias does. -/
def importMatches (pkgName : String) (imp : ImportSpec) : Bool :=
  (lastSegment (trimQuotes imp.pathValue) == pkgName) ||
    (imp.name == some pkgName)

/-- The recursive skeleton of a type expression, with every leaf
(plain or qualified name) identified: used to state that translation
preserves structure exactly. -/
inductive TyShape where
  | leaf
  | ptr (s : TyShape)
  | seq (s : TyShape)
  | mapOf (k v : TyShape)
deriving DecidableEq, Repr

/-- Skeleton of a source-side type expression. -/
def exprShape : Expr → TyShape
  | .ident _ => .leaf
  | .selector _ _ => .leaf
  | .mapType k v => .mapOf (exprShape k) (exprShape v)
  | .arrayType _ e => .seq (exprShape e)
  | .starExpr x => .ptr (exprShape x)
  | .unsupported => .leaf

/-- Skeleton of an output-side type expression. -/
def outShape : OutType → TyShape
  | .id _ => .leaf
  | .qual _ _ => .leaf
  | .map k v => .mapOf (outShape k) (outShape v)
  | .index e => .seq (outShape e)
  | .star x => .ptr (outShape x)

/-! ## Helper lemmas -/

/-- Inversion of a successful `Except` bind. -/
theorem exbind_ok {α β : Type} {x : Except GenError α}
    {f : α → Except GenError β} {b : β} (h : x >>= f = Except.ok b) :
    ∃ a, x = Except.ok a ∧ f a = Except.ok b := by
  cases x with
  | error e => exact absurd h (by simp [Bind.bind, Except.bind])
  | ok a => exact ⟨a, rfl, h⟩

/-- `qualify` is the in-order search for the first import spec passing
`importMatches`. -/
theorem qualify_eq_find (pkg sel : String) (imports : List ImportSpec) :
    qualify pkg sel imports =
      match imports.find? (importMatches pkg) with
      | some imp => .ok (sel, trimQuotes imp.pathValue)
      | none => .error .unresolvedImport := by
  induction imports with
  | nil => rfl
  | cons imp rest ih =>
    by_cases h : lastSegment (trimQuotes imp.pathValue) = pkg ∨ imp.name = some pkg
    · have hm : importMatches pkg imp = true := by
        simp only [importMatches, Bool.or_eq_true, beq_iff_eq]; exact h
      simp only [qualify, if_pos h, List.find?_cons_of_pos _ hm]
    · have hm : ¬ importMatches pkg imp = true := by
        simp only [importMatches, Bool.or_eq_true, beq_iff_eq]; exact h
      simp only [qualify, if_neg h, List.find?_cons_of_neg _ hm, ih]

/-- A successful `qualify` returns the selector identifier unchanged as
the name component. -/
theorem qualify_ok_fst {pkg sel n p : String} {imports : List ImportSpec}
    (h : qualify pkg sel imports = .ok (n, p)) : n = sel := by
  rw [qualify_eq_find] at h
  cases hf : imports.find? (importMatches pkg) with
  | none => rw [hf] at h; cases h
  | some imp => rw [hf] at h; cases h; rfl

/-- A non-record type spec contributes nothing and no error. -/
theorem typeSpecMembers_non_record (opts : GeneratorOpts)
    (imp : List ImportSpec) (ts : TypeSpec)
    (h : isRecordSpec ts = false) :
    typeSpecMembers opts imp ts = .ok [] := by
  cases ts with
  | mk name ty =>
    cases ty with
    | structType fields => simp [isRecordSpec] at h
    | otherType => rfl

/-- A run of non-record type specs contributes nothing and no error. -/
theorem typeSpecsMembers_no_records (opts : GeneratorOpts)
    (imp : List ImportSpec) :
    ∀ l : List TypeSpec, (∀ ts ∈ l, isRecordSpec ts = false) →
      typeSpecsMembers opts imp l = .ok [] := by
  intro l
  induction l with
  | nil => intro _; rfl
  | cons ts rest ih =>
    intro hall
    simp only [typeSpecsMembers,
      typeSpecMembers_non_record opts imp ts
        (hall ts (List.mem_cons_self ts rest)),
      ih (fun t ht => hall t (List.mem_cons_of_mem ts ht))]
    rfl

/-- A declaration under which the walk finds no record-shaped type
spec contributes nothing and no error. -/
theorem declMembers_no_records (opts : GeneratorOpts)
    (imp : List ImportSpec) (d : Decl) (h : declRecordSpecs d = []) :
    declMembers opts imp d = .ok [] := by
  cases d with
  | typeSpecDecl ts =>
    simp only [declRecordSpecs] at h
    by_cases hr : isRecordSpec ts = true
    · rw [if_pos hr] at h; cases h
    · exact typeSpecMembers_non_record opts imp ts (by simpa using hr)
  | otherDecl nested =>
    simp only [declRecordSpecs] at h
    refine typeSpecsMembers_no_records opts imp nested ?_
    intro ts hts
    simpa using List.filter_eq_nil_iff.mp h ts hts

/-- Filtering away the declarations under which the walk finds no
record-shaped type spec does not change the walk's outcome. -/
theorem declsMembers_filter_records (opts : GeneratorOpts)
    (imp : List ImportSpec) (decls : List Decl) :
    declsMembers opts imp
      (decls.filter (fun d => !(declRecordSpecs d).isEmpty)) =
      declsMembers opts imp decls := by
  induction decls with
  | nil => rfl
  | cons d ds ih =>
    cases hr : (declRecordSpecs d).isEmpty with
    | false =>
      simp only [List.filter_cons, hr, Bool.not_false, if_true,
        declsMembers, ih]
    | true =>
      have hnil : declRecordSpecs d = [] := by
        simpa using hr
      simp only [List.filter_cons, hr, Bool.not_true, Bool.false_eq_true,
        if_false, ih, declsMembers, declMembers_no_records opts imp d hnil]
      cases hds : declsMembers opts imp ds with
      | error e => rfl
      | ok ms => simp [Bind.bind, Except.bind, pure, Except.pure]

/-- Structure of the member list a record declaration generates: the
type definition first, then per field, in order, its accessor
immediately followed by its mutator. -/
theorem fieldsMembers_structure (opts : GeneratorOpts) (imp : List ImportSpec)
    (typName : String) :
    ∀ (fields : List Field) (ms : List Member),
      fieldsMembers opts imp typName fields = .ok ms →
      ∃ pairs : List (Member × Member),
        ms = pairs.flatMap (fun p => [p.1, p.2]) ∧
        List.Forall₂ (fun (f : Field) (p : Member × Member) =>
          AccessFunc opts typName f imp = .ok p.1 ∧
          WithFunc opts typName f imp = .ok p.2) fields pairs := by
  intro fields
  induction fields with
  | nil =>
    intro ms h
    cases h
    exact ⟨[], rfl, List.Forall₂.nil⟩
  | cons f fs ih =>
    intro ms h
    simp only [fieldsMembers] at h
    obtain ⟨a, ha, h⟩ := exbind_ok h
    obtain ⟨w, hw, h⟩ := exbind_ok h
    obtain ⟨rest, hrest, h⟩ := exbind_ok h
    cases h
    obtain ⟨pairs, hp, hall⟩ := ih rest hrest
    exact ⟨(a, w) :: pairs, by simp [hp], List.Forall₂.cons ⟨ha, hw⟩ hall⟩

/-- A successful `AccessFunc` emits an accessor member. -/
theorem AccessFunc_ok_isAccess {opts : GeneratorOpts} {typName : String}
    {f : Field} {imp : List ImportSpec} {m : Member}
    (h : AccessFunc opts typName f imp = .ok m) : m.isAccess = true := by
  simp only [AccessFunc] at h
  split at h
  · cases h
  · obtain ⟨t, ht, h⟩ := exbind_ok h
    cases h
    rfl

/-- A successful `WithFunc` emits a mutator member. -/
theorem WithFunc_ok_isWith {opts : GeneratorOpts} {typName : String}
    {f : Field} {imp : List ImportSpec} {m : Member}
    (h : WithFunc opts typName f imp = .ok m) : m.isWith = true := by
  simp only [WithFunc] at h
  obtain ⟨t, ht, h⟩ := exbind_ok h
  cases h
  rfl

/-- From a `Forall₂` over two lists, every member of the first list is
related to some element of the second. -/
theorem forall2_mem_left {α β : Type} {R : α → β → Prop} :
    ∀ {l₁ : List α} {l₂ : List β}, List.Forall₂ R l₁ l₂ →
      ∀ a ∈ l₁, ∃ b, R a b := by
  intro l₁
  induction l₁ with
  | nil => intro l₂ _ a ha; cases ha
  | cons x xs ih =>
    intro l₂ hall a ha
    cases hall with
    | cons hx hxs =>
      cases ha with
      | head => exact ⟨_, hx⟩
      | tail _ ha => exact ih hxs a ha

/-! ## Claims -/

/-- Claim C1: the claim says a field carrying a tag entry under the
configured tag name gets that value (truncated at the first comma) as
its key.  The code evaluated at the failing input shows otherwise: the
tag of the field `Name string` with literal `` `particle:"name"` ``
does carry the entry `particle:"name"` (first conjunct: looked up on
the literal's *content*, the value is `"name"`), but the code applies
`reflect.StructTag.Get` to the raw literal including its backquotes,
where the lookup finds nothing (second conjunct), so `fieldNames`
falls back to the declared name and keys the field `"Name"`, not
`"name"` (third conjunct).  The accessor-name half of the claim does
hold (the first component is `"Name"`). -/
theorem C1_struct_tag_key_bug :
    structTagGet "particle:\"name\"" "particle" = "name" ∧
    structTagGet "`particle:\"name\"`" "particle" = "" ∧
    fieldNames ⟨"partial", "particle", "Partial"⟩
      ⟨["Name"], .ident "string", some "`particle:\"name\"`"⟩ =
      ("Name", "Name") := by
  refine ⟨?_, ?_, ?_⟩ <;> rfl

/-- Claim C2: the end-to-end scenario (record `User`, field `Name
string` tagged `` `particle:"name"` ``, field `Age int` untagged,
options `{Package := "partial", StructTag := "particle", TypePrefix :=
"Partial"}`) evaluated on the code.  The type `PartialUser` and the
`Age`/`WithAge` pair come out as the claim says, but the `Name`
accessor reads key `"Name"` and `WithName` writes key `"Name"` — not
the tag value `"name"` the claim requires — because the struct-tag
lookup on the backquote-wrapped literal fails. -/
theorem C2_end_to_end_actual :
    FileFunc ⟨"partial", "particle", "Partial"⟩
      ⟨[], [.typeSpecDecl ⟨"User", .structType
        [⟨["Name"], .ident "string", some "`particle:\"name\"`"⟩,
         ⟨["Age"], .ident "int", none⟩]⟩]⟩ =
    .ok { pkg := "partial", imports := [],
          members := [.typeDef "PartialUser",
            .accessFunc "PartialUser" "Name" "Name" (.id "string"),
            .withFunc "PartialUser" "WithName" "Name" (.id "string"),
            .accessFunc "PartialUser" "Age" "Age" (.id "int"),
            .withFunc "PartialUser" "WithAge" "Age" (.id "int")] } := by
  rfl

/-- Claim C3, counterexample: a source unit importing `"time"` with no
declarations.  Generation succeeds and registers the naming hint for
the import, but the rendered output's import block is empty — the
generated output does *not* contain a copy of every ImportSpec,
because jennifer emits an import only for a path some `Qual` in the
generated code references, and nothing references `"time"`. -/
theorem C3_counterexample :
    FileFunc ⟨"partial", "particle", "Partial"⟩
      ⟨[⟨none, "\"time\""⟩], []⟩ =
      .ok ⟨"partial", [.importName "time"], []⟩ ∧
    renderedImports ⟨"partial", [.importName "time"], []⟩ = [] := by
  refine ⟨?_, ?_⟩ <;> rfl

/-- Claim C3 as amended: generation registers a naming hint on the
output file for every ImportSpec of the source unit, preserving the
explicit alias when one is present; but the rendered import block
contains exactly the import paths referenced by a qualified type among
the generated members — an ImportSpec no generated type refers to does
not appear in the output — and a rendered path registered with an
explicit alias is rendered under that alias. -/
theorem C3_amended_imports (opts : GeneratorOpts) (file : SourceFile)
    (gf : GenFile) (h : FileFunc opts file = .ok gf) :
    (∀ imp ∈ file.imports,
      (match imp.name with
       | some a => ImportReg.importAlias (trimQuotes imp.pathValue) a
       | none => ImportReg.importName (trimQuotes imp.pathValue)) ∈
      gf.imports) ∧
    (∀ p : String,
      (∃ r ∈ renderedImports gf, r.2 = p) ↔
        ∃ m ∈ gf.members, p ∈ memberPaths m) ∧
    (∀ p a : String, ∀ r ∈ renderedImports gf,
      regAliasFor gf.imports p = some a → r.2 = p → r.1 = some a) := by
  simp only [FileFunc] at h
  obtain ⟨ms, hms, h⟩ := exbind_ok h
  have h' : Except.ok (GenFile.mk opts.Package
      (file.imports.map ImportFunc) ms) = Except.ok gf := h
  cases h'
  refine ⟨?_, ?_, ?_⟩
  · intro imp hmem
    have heq : (match imp.name with
         | some a => ImportReg.importAlias (trimQuotes imp.pathValue) a
         | none => ImportReg.importName (trimQuotes imp.pathValue)) =
        ImportFunc imp := by
      cases himp : imp.name <;> simp [ImportFunc, himp]
    rw [heq]
    exact List.mem_map_of_mem _ hmem
  · intro p
    constructor
    · rintro ⟨r, hr, hp⟩
      simp only [renderedImports, List.mem_map] at hr
      obtain ⟨q, hq, rfl⟩ := hr
      cases hp
      rw [List.mem_dedup, List.mem_flatMap] at hq
      exact hq
    · rintro ⟨m, hm, hp⟩
      refine ⟨(regAliasFor
        (GenFile.mk opts.Package (file.imports.map ImportFunc) ms).imports p,
        p), ?_, rfl⟩
      simp only [renderedImports, List.mem_map]
      exact ⟨p, List.mem_dedup.mpr (List.mem_flatMap.mpr ⟨m, hm, hp⟩), rfl⟩
  · intro p a r hr hreg hp
    simp only [renderedImports, List.mem_map] at hr
    obtain ⟨q, hq, rfl⟩ := hr
    cases hp
    exact hreg

/-- Witness for the amended C3 at a concrete input: imports `"time"`
(no alias) and `j "encoding/json"` (explicit alias), one record whose
field `At time.Time` references `"time"`; the hints for both specs are
registered, and the rendered block's paths are exactly those the
members reference (so `"time"` and not `"encoding/json"`). -/
theorem C3_amended_imports_witness :
    (∀ imp ∈ ([⟨none, "\"time\""⟩, ⟨some "j", "\"encoding/json\""⟩] :
        List ImportSpec),
      (match imp.name with
       | some a => ImportReg.importAlias (trimQuotes imp.pathValue) a
       | none => ImportReg.importName (trimQuotes imp.pathValue)) ∈
      (GenFile.mk "partial"
        [.importName "time", .importAlias "encoding/json" "j"]
        [.typeDef "PartialEvent",
         .accessFunc "PartialEvent" "At" "At" (.qual "time" "Time"),
         .withFunc "PartialEvent" "WithAt" "At"
           (.qual "time" "Time")]).imports) ∧
    (∀ p : String,
      (∃ r ∈ renderedImports (GenFile.mk "partial"
          [.importName "time", .importAlias "encoding/json" "j"]
          [.typeDef "PartialEvent",
           .accessFunc "PartialEvent" "At" "At" (.qual "time" "Time"),
           .withFunc "PartialEvent" "WithAt" "At" (.qual "time" "Time")]),
        r.2 = p) ↔
        ∃ m ∈ (GenFile.mk "partial"
          [.importName "time", .importAlias "encoding/json" "j"]
          [.typeDef "PartialEvent",
           .accessFunc "PartialEvent" "At" "At" (.qual "time" "Time"),
           .withFunc "PartialEvent" "WithAt" "At"
             (.qual "time" "Time")]).members,
          p ∈ memberPaths m) ∧
    (∀ p a : String, ∀ r ∈ renderedImports (GenFile.mk "partial"
        [.importName "time", .importAlias "encoding/json" "j"]
        [.typeDef "PartialEvent",
         .accessFunc "PartialEvent" "At" "At" (.qual "time" "Time"),
         .withFunc "PartialEvent" "WithAt" "At" (.qual "time" "Time")]),
      regAliasFor (GenFile.mk "partial"
        [.importName "time", .importAlias "encoding/json" "j"]
        [.typeDef "PartialEvent",
         .accessFunc "PartialEvent" "At" "At" (.qual "time" "Time"),
         .withFunc "PartialEvent" "WithAt" "At"
           (.qual "time" "Time")]).imports p = some a →
      r.2 = p → r.1 = some a) :=
  C3_amended_imports ⟨"partial", "particle", "Partial"⟩
    ⟨[⟨none, "\"time\""⟩, ⟨some "j", "\"encoding/json\""⟩],
     [.typeSpecDecl ⟨"Event", .structType
        [⟨["At"], .selector "time" "Time", none⟩]⟩]⟩
    ⟨"partial", [.importName "time", .importAlias "encoding/json" "j"],
     [.typeDef "PartialEvent",
      .accessFunc "PartialEvent" "At" "At" (.qual "time" "Time"),
      .withFunc "PartialEvent" "WithAt" "At" (.qual "time" "Time")]⟩
    rfl

/-- Claim C4, counterexample: the claim says the resolving alias of an
ImportSpec is its explicit alias *if present* and only otherwise the
last path segment, so the qualifier `baz` should not resolve against
`foo "bar/baz"` (whose resolving alias is `foo`) and generation should
fail with UnresolvedImport — but the code resolves it: `qualify`
matches the last path segment even when an explicit alias is
present. -/
theorem C4_counterexample :
    specResolveAlias ⟨some "foo", "\"bar/baz\""⟩ = "foo" ∧
    determineType (.selector "baz" "T") [⟨some "foo", "\"bar/baz\""⟩] =
      .ok (.qual "bar/baz" "T") := by
  refine ⟨?_, ?_⟩ <;> rfl

/-- Claim C4 as amended: translating `Qualified(alias, id)` scans the
ImportSpecs in order and resolves to the first whose last
`/`-delimited path segment equals the alias *or* whose explicit alias
equals it (the last segment keeps matching even when an explicit alias
is present); on a match the output is qualified by that spec's full
trimmed path and `id`; when no spec matches either way the translation
— and with it the field's accessor, hence the whole generation —
fails with UnresolvedImport. -/
theorem C4_amended_resolution (pkg sel : String)
    (imports : List ImportSpec) :
    match imports.find? (importMatches pkg) with
    | some imp => determineType (.selector pkg sel) imports =
        .ok (.qual (trimQuotes imp.pathValue) sel)
    | none =>
        determineType (.selector pkg sel) imports =
          .error .unresolvedImport ∧
        ∀ (opts : GeneratorOpts) (typName n : String) (ns : List String)
          (tag : Option String),
          AccessFunc opts typName ⟨n :: ns, .selector pkg sel, tag⟩
            imports = .error .unresolvedImport := by
  cases hf : imports.find? (importMatches pkg) with
  | some imp => simp only [determineType, qualify_eq_find, hf]
  | none =>
    have hd : determineType (.selector pkg sel) imports =
        .error .unresolvedImport := by
      simp only [determineType, qualify_eq_find, hf]
    refine ⟨hd, ?_⟩
    intro opts typName n ns tag
    simp [AccessFunc, hd, Bind.bind, Except.bind]

/-- Claim C5: a successful translation preserves the recursive
structure of the type expression exactly — same skeleton, named types
verbatim, qualified identifiers kept, and pointer/sequence/mapping
nodes wrapping the translations of their operands. -/
theorem C5_type_shape_fidelity (imp : List ImportSpec) (e : Expr)
    (t : OutType) (h : determineType e imp = .ok t) :
    outShape t = exprShape e ∧
    (∀ n, e = .ident n → t = .id n) ∧
    (∀ pkg sel, e = .selector pkg sel → ∃ path, t = .qual path sel) ∧
    (∀ x, e = .starExpr x →
      ∃ tx, determineType x imp = .ok tx ∧ t = .star tx) ∧
    (∀ len el, e = .arrayType len el →
      ∃ te, determineType el imp = .ok te ∧ t = .index te) ∧
    (∀ k v, e = .mapType k v →
      ∃ tk tv, determineType k imp = .ok tk ∧
        determineType v imp = .ok tv ∧ t = .map tk tv) := by
  induction e generalizing t with
  | ident n =>
    have h' : Except.ok (OutType.id n) = Except.ok t := h
    cases h'
    refine ⟨rfl, ?_, ?_, ?_, ?_, ?_⟩
    · intro n' hn; cases hn; rfl
    · intro pkg sel he; cases he
    · intro x he; cases he
    · intro len el he; cases he
    · intro k v he; cases he
  | selector pkg sel =>
    simp only [determineType] at h
    cases hq : qualify pkg sel imp with
    | error e' => rw [hq] at h; cases h
    | ok pr =>
      obtain ⟨nm, p⟩ := pr
      rw [hq] at h
      cases h
      cases qualify_ok_fst hq
      refine ⟨rfl, ?_, ?_, ?_, ?_, ?_⟩
      · intro n' he; cases he
      · intro pkg' sel' he; cases he; exact ⟨p, rfl⟩
      · intro x he; cases he
      · intro len el he; cases he
      · intro k v he; cases he
  | mapType k v ihk ihv =>
    simp only [determineType] at h
    obtain ⟨tk, htk, h⟩ := exbind_ok h
    obtain ⟨tv, htv, h⟩ := exbind_ok h
    have h' : Except.ok (OutType.map tk tv) = Except.ok t := h
    cases h'
    refine ⟨?_, ?_, ?_, ?_, ?_, ?_⟩
    · simp [outShape, exprShape, (ihk tk htk).1, (ihv tv htv).1]
    · intro n' he; cases he
    · intro pkg' sel' he; cases he
    · intro x he; cases he
    · intro len el he; cases he
    · intro k' v' he; cases he; exact ⟨tk, tv, htk, htv, rfl⟩
  | arrayType len el ih =>
    simp only [determineType] at h
    obtain ⟨te, hte, h⟩ := exbind_ok h
    have h' : Except.ok (OutType.index te) = Except.ok t := h
    cases h'
    refine ⟨?_, ?_, ?_, ?_, ?_, ?_⟩
    · simp [outShape, exprShape, (ih te hte).1]
    · intro n' he; cases he
    · intro pkg' sel' he; cases he
    · intro x he; cases he
    · intro len' el' he; cases he; exact ⟨te, hte, rfl⟩
    · intro k' v' he; cases he
  | starExpr x ih =>
    simp only [determineType] at h
    obtain ⟨tx, htx, h⟩ := exbind_ok h
    have h' : Except.ok (OutType.star tx) = Except.ok t := h
    cases h'
    refine ⟨?_, ?_, ?_, ?_, ?_, ?_⟩
    · simp [outShape, exprShape, (ih tx htx).1]
    · intro n' he; cases he
    · intro pkg' sel' he; cases he
    · intro x' he; cases he; exact ⟨tx, htx, rfl⟩
    · intro len' el' he; cases he
    · intro k' v' he; cases he
  | unsupported => simp [determineType] at h

/-- Witness for C5 at the claim's own example input
`Pointer(Sequence(Named("int")))`: its translation succeeds with
`*[]int`, a pointer to a sequence of the named type `int`. -/
theorem C5_type_shape_fidelity_witness :
    outShape (.star (.index (.id "int"))) =
      exprShape (.starExpr (.arrayType none (.ident "int"))) ∧
    (∀ n, Expr.starExpr (.arrayType none (.ident "int")) = .ident n →
      OutType.star (.index (.id "int")) = .id n) ∧
    (∀ pkg sel,
      Expr.starExpr (.arrayType none (.ident "int")) = .selector pkg sel →
      ∃ path, OutType.star (.index (.id "int")) = .qual path sel) ∧
    (∀ x, Expr.starExpr (.arrayType none (.ident "int")) = .starExpr x →
      ∃ tx, determineType x [] = .ok tx ∧
        OutType.star (.index (.id "int")) = .star tx) ∧
    (∀ len el,
      Expr.starExpr (.arrayType none (.ident "int")) = .arrayType len el →
      ∃ te, determineType el [] = .ok te ∧
        OutType.star (.index (.id "int")) = .index te) ∧
    (∀ k v, Expr.starExpr (.arrayType none (.ident "int")) = .mapType k v →
      ∃ tk tv, determineType k [] = .ok tk ∧ determineType v [] = .ok tv ∧
        OutType.star (.index (.id "int")) = .map tk tv) :=
  C5_type_shape_fidelity [] (.starExpr (.arrayType none (.ident "int")))
    (.star (.index (.id "int"))) rfl

/-- Claim C6, counterexample: a top-level declaration that is *not* a
record declaration (a function, say, containing the local type
`type L struct{ A int }`) does produce output: `ast.Inspect` recurses
into the declaration, matches the nested struct type spec, and
generates its partial type and accessor/mutator pair — refuting "every
declaration whose shape is not a record produces no output at all". -/
theorem C6_counterexample :
    isRecordDecl (Decl.otherDecl
      [⟨"L", .structType [⟨["A"], .ident "int", none⟩]⟩]) = false ∧
    declMembers ⟨"partial", "particle", "Partial"⟩ []
      (Decl.otherDecl
        [⟨"L", .structType [⟨["A"], .ident "int", none⟩]⟩]) =
      .ok [.typeDef "PartialL",
           .accessFunc "PartialL" "A" "A" (.id "int"),
           .withFunc "PartialL" "WithA" "A" (.id "int")] := by
  refine ⟨?_, ?_⟩ <;> rfl

/-- Claim C6 as amended: the walk reacts to record-shaped (struct)
type specs at *any* depth — `ast.Inspect` recurses into non-type
declarations, so a struct type spec nested inside one (e.g. a local
type in a function body) generates output too.  What remains true of
the original claim: a type spec that is not a struct, and any top-level
declaration under which the walk finds no record-shaped type spec,
produce no output and raise no error, and dropping all such
declarations leaves the generated unit unchanged. -/
theorem C6_amended_no_record_specs (opts : GeneratorOpts)
    (file : SourceFile) (d : Decl) (h : declRecordSpecs d = []) :
    declMembers opts file.imports d = .ok [] ∧
    FileFunc opts ⟨file.imports,
      file.decls.filter (fun x => !(declRecordSpecs x).isEmpty)⟩ =
      FileFunc opts file := by
  refine ⟨declMembers_no_records opts file.imports d h, ?_⟩
  cases file with
  | mk imports decls => simp only [FileFunc, declsMembers_filter_records]

/-- Witness for the amended C6: a file holding a non-type declaration
with one nested non-record type spec, plus a one-field record; the
former yields no members and filtering it away leaves the generated
file unchanged. -/
theorem C6_amended_no_record_specs_witness :
    declMembers ⟨"partial", "particle", "Partial"⟩ []
      (Decl.otherDecl [⟨"T0", TypeSpecType.otherType⟩]) = .ok [] ∧
    FileFunc ⟨"partial", "particle", "Partial"⟩
      ⟨[], [Decl.otherDecl [⟨"T0", TypeSpecType.otherType⟩],
            Decl.typeSpecDecl ⟨"User", .structType
              [⟨["Age"], .ident "int", none⟩]⟩].filter
          (fun x => !(declRecordSpecs x).isEmpty)⟩ =
    FileFunc ⟨"partial", "particle", "Partial"⟩
      ⟨[], [Decl.otherDecl [⟨"T0", TypeSpecType.otherType⟩],
            Decl.typeSpecDecl ⟨"User", .structType
              [⟨["Age"], .ident "int", none⟩]⟩]⟩ :=
  C6_amended_no_record_specs ⟨"partial", "particle", "Partial"⟩
    ⟨[], [Decl.otherDecl [⟨"T0", TypeSpecType.otherType⟩],
          Decl.typeSpecDecl ⟨"User", .structType
            [⟨["Age"], .ident "int", none⟩]⟩]⟩
    (Decl.otherDecl [⟨"T0", TypeSpecType.otherType⟩]) rfl

/-- Claim C7: the members generated for a record declaration with N
fields are exactly one type definition (named TypePrefix ++ name)
followed by exactly N accessor/mutator pairs, in source field order,
each field's accessor emitted immediately before its mutator. -/
theorem C7_record_members (opts : GeneratorOpts) (imp : List ImportSpec)
    (name : String) (fields : List Field) (ms : List Member)
    (h : declMembers opts imp
      (.typeSpecDecl ⟨name, .structType fields⟩) = .ok ms) :
    ∃ pairs : List (Member × Member),
      ms = .typeDef (opts.TypePrefix ++ name) ::
        pairs.flatMap (fun p => [p.1, p.2]) ∧
      pairs.length = fields.length ∧
      List.Forall₂ (fun (f : Field) (p : Member × Member) =>
        (AccessFunc opts name f imp = .ok p.1 ∧
          Member.isAccess p.1 = true) ∧
        (WithFunc opts name f imp = .ok p.2 ∧
          Member.isWith p.2 = true)) fields pairs := by
  simp only [declMembers, typeSpecMembers] at h
  obtain ⟨tdef, htd, h⟩ := exbind_ok h
  obtain ⟨ms', hms, h⟩ := exbind_ok h
  have h' : Except.ok (tdef :: ms') = Except.ok ms := h
  cases h'
  have htd' : Except.ok (Member.typeDef (opts.TypePrefix ++ name)) =
      Except.ok tdef := htd
  cases htd'
  obtain ⟨pairs, hp, hall⟩ :=
    fieldsMembers_structure opts imp name fields ms' hms
  refine ⟨pairs, by rw [hp], (hall.length_eq).symm, ?_⟩
  exact hall.imp (fun a b hfp =>
    ⟨⟨hfp.1, AccessFunc_ok_isAccess hfp.1⟩,
     ⟨hfp.2, WithFunc_ok_isWith hfp.2⟩⟩)

/-- Witness for C7 at a concrete record with one field. -/
theorem C7_record_members_witness :
    ∃ pairs : List (Member × Member),
      [Member.typeDef "PartialUser",
       Member.accessFunc "PartialUser" "Age" "Age" (.id "int"),
       Member.withFunc "PartialUser" "WithAge" "Age" (.id "int")] =
        Member.typeDef "PartialUser" ::
          pairs.flatMap (fun p => [p.1, p.2]) ∧
      pairs.length =
        [(⟨["Age"], Expr.ident "int", none⟩ : Field)].length ∧
      List.Forall₂ (fun (f : Field) (p : Member × Member) =>
        (AccessFunc ⟨"partial", "particle", "Partial"⟩ "User" f [] =
          .ok p.1 ∧ Member.isAccess p.1 = true) ∧
        (WithFunc ⟨"partial", "particle", "Partial"⟩ "User" f [] =
          .ok p.2 ∧ Member.isWith p.2 = true))
        [⟨["Age"], Expr.ident "int", none⟩] pairs :=
  C7_record_members ⟨"partial", "particle", "Partial"⟩ [] "User"
    [⟨["Age"], .ident "int", none⟩]
    [.typeDef "PartialUser",
     .accessFunc "PartialUser" "Age" "Age" (.id "int"),
     .withFunc "PartialUser" "WithAge" "Age" (.id "int")] rfl

/-- Claim C8: a field with no usable name (anonymous/embedded) makes
`AccessFunc` fail with MissingFieldName, and a record containing such
a field anywhere never generates successfully — the field is neither
silently skipped nor given an accessor or mutator. -/
theorem C8_missing_field_name (opts : GeneratorOpts) (imp : List ImportSpec)
    (name : String) (pre post : List Field) (f : Field)
    (hn : f.names = []) :
    AccessFunc opts name f imp = .error .missingFieldName ∧
    ∀ ms, declMembers opts imp
      (.typeSpecDecl ⟨name, .structType (pre ++ f :: post)⟩) ≠ .ok ms := by
  have hacc : AccessFunc opts name f imp = .error .missingFieldName := by
    simp [AccessFunc, hn]
  refine ⟨hacc, ?_⟩
  intro ms h
  simp only [declMembers, typeSpecMembers] at h
  obtain ⟨tdef, htd, h⟩ := exbind_ok h
  obtain ⟨ms', hms, h⟩ := exbind_ok h
  obtain ⟨pairs, hp, hall⟩ :=
    fieldsMembers_structure opts imp name (pre ++ f :: post) ms' hms
  have hmem : f ∈ pre ++ f :: post :=
    List.mem_append_right pre (List.mem_cons_self f post)
  obtain ⟨p, hfp, -⟩ := forall2_mem_left hall f hmem
  rw [hacc] at hfp
  cases hfp

/-- Witness for C8 at a concrete embedded field. -/
theorem C8_missing_field_name_witness :
    AccessFunc ⟨"partial", "particle", "Partial"⟩ "Box"
      ⟨[], .ident "int", none⟩ [] = .error .missingFieldName ∧
    ∀ ms, declMembers ⟨"partial", "particle", "Partial"⟩ []
      (.typeSpecDecl ⟨"Box", .structType
        [⟨[], Expr.ident "int", none⟩]⟩) ≠ .ok ms :=
  C8_missing_field_name ⟨"partial", "particle", "Partial"⟩ [] "Box"
    [] [] ⟨[], .ident "int", none⟩ rfl

/-- Claim C9: one field entry declaring several names (`A, B int`
untagged) yields exactly one accessor/mutator pair, named after and
keyed by the first declared name only; the remaining names are
ignored without error, whatever they are. -/
theorem C9_multi_name_first_only (opts : GeneratorOpts)
    (imp : List ImportSpec) (typName n : String) (rest : List String)
    (ty : Expr) (t : OutType) (ht : determineType ty imp = .ok t) :
    fieldsMembers opts imp typName [⟨n :: rest, ty, none⟩] =
      .ok [.accessFunc (opts.TypePrefix ++ typName) n n t,
           .withFunc (opts.TypePrefix ++ typName) ("With" ++ n) n t] := by
  simp [fieldsMembers, AccessFunc, WithFunc, fieldNames, ht,
    Bind.bind, Except.bind, pure, Except.pure]

/-- Witness for C9 at the concrete entry `A, B int`. -/
theorem C9_multi_name_first_only_witness :
    fieldsMembers ⟨"partial", "particle", "Partial"⟩ [] "Pair"
      [⟨["A", "B"], .ident "int", none⟩] =
      .ok [.accessFunc "PartialPair" "A" "A" (.id "int"),
           .withFunc "PartialPair" "WithA" "A" (.id "int")] :=
  C9_multi_name_first_only ⟨"partial", "particle", "Partial"⟩ [] "Pair"
    "A" ["B"] (.ident "int") (.id "int") rfl

/-- Claim C10: the translator ignores an array type's length — a
fixed-length array `[n]T` translates exactly like the slice `[]T`, to
a sequence of the translated element type; the length is discarded. -/
theorem C10_array_length_discarded (imp : List ImportSpec) (n : Nat)
    (elt : Expr) :
    determineType (.arrayType (some n) elt) imp =
      determineType (.arrayType none elt) imp ∧
    determineType (.arrayType (some n) elt) imp =
      OutType.index <$> determineType elt imp := by
  refine ⟨rfl, ?_⟩
  rw [determineType]
  cases h : determineType elt imp with
  | ok te => rfl
  | error e => rfl

end particle
